import Mathlib

/-!
Shallow embedding of the budget-grocery-app recommendation engine
(`src/models/budget_ranker.py`, `src/models/similarity_search.py`,
`src/models/price_predictor.py`, `src/pipeline/inference_pipeline.py`,
`src/api/endpoints/recommend.py`).

Prices and scores are modelled as rationals; pandas/NumPy `round`
(half-to-even, banker's rounding) is modelled exactly; pandas NaN cells
in optional numeric columns are modelled as `Option ℚ` with `none` for
NaN (`fillna(0)` becomes `Option.getD 0`).
-/

/-- Banker's rounding (round half to even) of a rational to an integer,
the rounding used by Python's `round` and NumPy/pandas `.round()`. -/
def roundHalfEven (q : ℚ) : ℤ :=
  if q - ⌊q⌋ < 1/2 then ⌊q⌋
  else if 1/2 < q - ⌊q⌋ then ⌊q⌋ + 1
  else if ⌊q⌋ % 2 = 0 then ⌊q⌋ else ⌊q⌋ + 1

/-- Python `round(q, d)` on rationals: banker's rounding at `d` decimal places. -/
def roundTo (d : ℕ) (q : ℚ) : ℚ :=
  (roundHalfEven (q * 10 ^ d) : ℚ) / 10 ^ d

/-- Insert an element into a list that is sorted in descending order of
`key`, keeping the descending order (models one step of the sort used by
`DataFrame.sort_values(..., ascending=False)` / `argsort()[::-1]`). -/
def insertDescBy {α : Type} (key : α → ℚ) (x : α) : List α → List α
  | [] => [x]
  | y :: ys => if key y < key x then x :: y :: ys else y :: insertDescBy key x ys

/-- Sort a list in descending order of `key`. -/
def sortDescBy {α : Type} (key : α → ℚ) : List α → List α
  | [] => []
  | x :: xs => insertDescBy key x (sortDescBy key xs)

/-- A catalog row, as consumed by the ranker and the inference pipeline.
Optional numeric columns (`price_per_100g`, `discount_pct`, `value_score`)
are `Option ℚ` because pandas cells may be NaN; `discount_pct` is the
0-to-1 discount fraction of the processed catalog. -/
structure Cand where
  Product_Name : String
  Sub_category : String
  Package_price : ℚ
  price_per_100g : Option ℚ
  discount_pct : Option ℚ
  value_score : Option ℚ
  search_score : ℚ
  city : String
  state : String
deriving DecidableEq, Repr

/-- The fused `_total_score` column of `BudgetRanker.rank_products`:
with a trained model (abstracted as a score function `Cand → ℚ`) the raw
model score plus `search_score * 5.0` when the `search_score` column is
present; without a model the rule-based fallback
`value_score.fillna(0) + discount_pct.fillna(0)` plus the same
`search_score * 5.0` term when present. -/
def totalScore (model : Option (Cand → ℚ)) (hasSearch : Bool) (c : Cand) : ℚ :=
  match model with
  | some m => if hasSearch then m c + c.search_score * 5 else m c
  | none =>
      let base := c.value_score.getD 0 + c.discount_pct.getD 0
      if hasSearch then base + c.search_score * 5 else base

/-- The `candidates` local of `rank_products`: the hard budget filter
`df[df["Package_price"] <= budget]`. -/
def candidatesWithinBudget (df : List Cand) (budget : ℚ) : List Cand :=
  df.filter (fun c => c.Package_price ≤ budget)

/-- The budget-filtered candidates after the near-zero-relevance guard of
`rank_products`: when the `search_score` column exists, additionally keep
only `search_score > 0.01`. -/
def candidatesRelevant (hasSearch : Bool) (df : List Cand) (budget : ℚ) : List Cand :=
  if hasSearch then
    (candidatesWithinBudget df budget).filter (fun c => (0.01 : ℚ) < c.search_score)
  else candidatesWithinBudget df budget

/-- Embedding of `BudgetRanker.rank_products(df, budget, top_n)`.
`model` abstracts the trained LightGBM scorer (`none` = untrained,
rule-based fallback); `hasSearch` says whether the `search_score` column
is present in `df`. Mirrors the source: hard budget filter, empty check,
near-zero-relevance guard (`search_score > 0.01`) when the column exists,
score fusion, sort descending by `_total_score`, take `top_n`. -/
def rank_products (model : Option (Cand → ℚ)) (hasSearch : Bool)
    (df : List Cand) (budget : ℚ) (top_n : ℕ) : List Cand :=
  if (candidatesWithinBudget df budget).isEmpty then []
  else if (candidatesRelevant hasSearch df budget).isEmpty then []
  else (sortDescBy (totalScore model hasSearch) (candidatesRelevant hasSearch df budget)).take top_n

-- ── Basic lemmas on the sort ─────────────────────────────────────────────

theorem mem_insertDescBy {α : Type} (key : α → ℚ) (x : α) (l : List α) (z : α)
    (hz : z ∈ insertDescBy key x l) : z = x ∨ z ∈ l := by
  induction l with
  | nil => simp only [insertDescBy, List.mem_singleton] at hz; exact Or.inl hz
  | cons y ys ih =>
    simp only [insertDescBy] at hz
    split at hz
    · rcases List.mem_cons.mp hz with h | h
      · exact Or.inl h
      · exact Or.inr h
    · rcases List.mem_cons.mp hz with h | h
      · exact Or.inr (by simp [h])
      · rcases ih h with h' | h'
        · exact Or.inl h'
        · exact Or.inr (List.mem_cons_of_mem _ h')

theorem mem_sortDescBy {α : Type} (key : α → ℚ) (l : List α) (z : α)
    (hz : z ∈ sortDescBy key l) : z ∈ l := by
  induction l with
  | nil => simp only [sortDescBy] at hz; exact hz
  | cons y ys ih =>
    rcases mem_insertDescBy key y (sortDescBy key ys) z hz with h | h
    · exact h ▸ List.mem_cons_self y ys
    · exact List.mem_cons_of_mem _ (ih h)

theorem pairwise_insertDescBy {α : Type} (key : α → ℚ) (x : α) (l : List α)
    (hl : l.Pairwise (fun a b => key b ≤ key a)) :
    (insertDescBy key x l).Pairwise (fun a b => key b ≤ key a) := by
  induction l with
  | nil => simp [insertDescBy]
  | cons y ys ih =>
    simp only [insertDescBy]
    rcases List.pairwise_cons.mp hl with ⟨hy, hys⟩
    split
    · rename_i hlt
      refine List.pairwise_cons.mpr ⟨?_, hl⟩
      intro b hb
      rcases List.mem_cons.mp hb with h | h
      · exact le_of_lt (h ▸ hlt)
      · exact le_trans (hy b h) (le_of_lt hlt)
    · rename_i hge
      refine List.pairwise_cons.mpr ⟨?_, ih hys⟩
      intro b hb
      rcases mem_insertDescBy key x ys b hb with h | h
      · exact h ▸ (not_lt.mp hge)
      · exact hy b h

theorem pairwise_sortDescBy {α : Type} (key : α → ℚ) (l : List α) :
    (sortDescBy key l).Pairwise (fun a b => key b ≤ key a) := by
  induction l with
  | nil => simp [sortDescBy]
  | cons y ys ih => exact pairwise_insertDescBy key y (sortDescBy key ys) ih

-- ── Membership facts about rank_products ─────────────────────────────────

theorem mem_candidatesRelevant (hasSearch : Bool) (df : List Cand) (budget : ℚ)
    (x : Cand) (hx : x ∈ candidatesRelevant hasSearch df budget) :
    x ∈ df ∧ x.Package_price ≤ budget ∧ (hasSearch = true → (0.01 : ℚ) < x.search_score) := by
  cases hasSearch with
  | false =>
    simp only [candidatesRelevant, if_neg, Bool.false_eq_true, not_false_iff,
      candidatesWithinBudget, List.mem_filter, decide_eq_true_eq] at hx
    exact ⟨hx.1, hx.2, by simp⟩
  | true =>
    simp only [candidatesRelevant, if_pos, candidatesWithinBudget,
      List.mem_filter, decide_eq_true_eq] at hx
    exact ⟨hx.1.1, hx.1.2, fun _ => hx.2⟩

theorem mem_rank_products (model : Option (Cand → ℚ)) (hasSearch : Bool)
    (df : List Cand) (budget : ℚ) (top_n : ℕ) (x : Cand)
    (hx : x ∈ rank_products model hasSearch df budget top_n) :
    x ∈ df ∧ x.Package_price ≤ budget ∧ (hasSearch = true → (0.01 : ℚ) < x.search_score) := by
  unfold rank_products at hx
  split at hx
  · simp at hx
  · split at hx
    · simp at hx
    · exact mem_candidatesRelevant hasSearch df budget x
        (mem_sortDescBy _ _ _ (List.mem_of_mem_take hx))

theorem pairwise_rank_products (model : Option (Cand → ℚ)) (hasSearch : Bool)
    (df : List Cand) (budget : ℚ) (top_n : ℕ) :
    (rank_products model hasSearch df budget top_n).Pairwise
      (fun a b => totalScore model hasSearch b ≤ totalScore model hasSearch a) := by
  unfold rank_products
  split
  · simp
  · split
    · simp
    · exact (pairwise_sortDescBy _ _).sublist (List.take_sublist _ _) |>.imp (fun h => h)

theorem pairwise_of_decomp {α : Type} {R : α → α → Prop} {l₁ l₂ l₃ : List α} {x y : α}
    (h : (l₁ ++ x :: (l₂ ++ y :: l₃)).Pairwise R) : R x y := by
  have h1 : (x :: (l₂ ++ y :: l₃)).Pairwise R := (List.pairwise_append.mp h).2.1
  exact (List.pairwise_cons.mp h1).1 y (by simp)

-- ── Concrete rows used to instantiate the theorems ───────────────────────

/-- Concrete catalog row: price 5, no search relevance data needed. -/
def candA : Cand := ⟨"a", "s", 5, none, none, none, 1, "c", "st"⟩

/-- Concrete catalog row with fallback base score 3 (value 2, discount 1). -/
def candX : Cand := ⟨"x", "s", 5, none, some 1, some 2, 1, "c", "st"⟩

/-- Concrete catalog row with fallback base score 1 (value 1, discount 0). -/
def candY : Cand := ⟨"y", "s", 5, none, some 0, some 1, 1, "c", "st"⟩

/-- Concrete catalog row whose search_score 0.005 falls to the relevance guard. -/
def candZ : Cand := ⟨"z", "s", 5, none, none, none, 0.005, "c", "st"⟩

-- ── C1 ───────────────────────────────────────────────────────────────────

/-- C1: every row returned by `rank_products candidates budget top_n` has
package price at most `budget`; and if no candidate has package price at
most `budget`, the result is the empty list (a normal value, not an
error), for any model state and any search-column presence. -/
theorem C1_rank_within_budget (model : Option (Cand → ℚ)) (hasSearch : Bool)
    (df : List Cand) (budget : ℚ) (top_n : ℕ) :
    (∀ x ∈ rank_products model hasSearch df budget top_n, x.Package_price ≤ budget) ∧
    ((∀ c ∈ df, budget < c.Package_price) →
      rank_products model hasSearch df budget top_n = []) := by
  constructor
  · intro x hx
    exact (mem_rank_products model hasSearch df budget top_n x hx).2.1
  · intro h
    have hnil : candidatesWithinBudget df budget = [] := by
      apply List.filter_eq_nil_iff.mpr
      intro c hc
      simpa using not_le.mpr (h c hc)
    simp [rank_products, hnil]

/-- Witness for C1 at a concrete input: the single candidate is priced 5,
the budget is 1, so the result is empty and the bound holds vacuously. -/
theorem C1_rank_within_budget_witness :
    rank_products Option.none false [candA] 1 3 = [] :=
  (C1_rank_within_budget Option.none false [candA] 1 3).2 (by decide)

-- ── C6 ───────────────────────────────────────────────────────────────────

/-- C6: with no trained model, whenever candidate `x` is returned before
candidate `y` by `rank_products` and the two have equal `search_score`,
the fallback base score `value_score + discount_pct` of `y` is at most
that of `x`; equivalently, of two within-budget candidates with equal
search score, the one with the strictly higher `value_score + discount_pct`
is ordered first. -/
theorem C6_fallback_monotone (df : List Cand) (budget : ℚ) (top_n : ℕ)
    (x y : Cand) (l₁ l₂ l₃ : List Cand)
    (hres : rank_products Option.none true df budget top_n = l₁ ++ x :: (l₂ ++ y :: l₃))
    (hs : x.search_score = y.search_score) :
    y.value_score.getD 0 + y.discount_pct.getD 0 ≤
      x.value_score.getD 0 + x.discount_pct.getD 0 := by
  have hpair := pairwise_rank_products Option.none true df budget top_n
  rw [hres] at hpair
  have hxy : totalScore Option.none true y ≤ totalScore Option.none true x :=
    pairwise_of_decomp
      (R := fun a b => totalScore Option.none true b ≤ totalScore Option.none true a) hpair
  simp only [totalScore, if_true] at hxy
  rw [hs] at hxy
  linarith

/-- Witness for C6 at a concrete input: candidates with equal search score 1
and fallback bases 3 (candX) and 1 (candY); the ranker returns candX first. -/
theorem C6_fallback_monotone_witness :
    candY.value_score.getD 0 + candY.discount_pct.getD 0 ≤
      candX.value_score.getD 0 + candX.discount_pct.getD 0 :=
  C6_fallback_monotone [candY, candX] 10 5 candX candY [] [] []
    (by norm_num [rank_products, candidatesWithinBudget, candidatesRelevant,
      candX, candY, sortDescBy, insertDescBy, totalScore, List.filter])
    (by norm_num [candX, candY])

-- ── C8 ───────────────────────────────────────────────────────────────────

/-- C8: when the candidate rows carry a `search_score` column, every
returned row has `search_score > 0.01` (so every within-budget candidate
with `search_score ≤ 0.01` is dropped), and if all within-budget
candidates have `search_score ≤ 0.01` the result is the empty list — a
normal value, not a raised error. -/
theorem C8_relevance_guard (model : Option (Cand → ℚ))
    (df : List Cand) (budget : ℚ) (top_n : ℕ) :
    (∀ x ∈ rank_products model true df budget top_n, (0.01 : ℚ) < x.search_score) ∧
    ((∀ c ∈ df, c.Package_price ≤ budget → c.search_score ≤ (0.01 : ℚ)) →
      rank_products model true df budget top_n = []) := by
  constructor
  · intro x hx
    exact (mem_rank_products model true df budget top_n x hx).2.2 rfl
  · intro h
    have h2 : candidatesRelevant true df budget = [] := by
      simp only [candidatesRelevant, if_pos]
      apply List.filter_eq_nil_iff.mpr
      intro c hc
      simp only [candidatesWithinBudget, List.mem_filter, decide_eq_true_eq] at hc
      simpa using not_lt.mpr (h c hc.1 hc.2)
    by_cases hempty : (candidatesWithinBudget df budget).isEmpty
    · simp [rank_products, hempty]
    · simp [rank_products, hempty, h2]

/-- Witness for C8 at a concrete input: the single candidate is within
budget but has search score 0.005 ≤ 0.01, so the result is empty. -/
theorem C8_relevance_guard_witness :
    rank_products Option.none true [candZ] 10 3 = [] :=
  (C8_relevance_guard Option.none [candZ] 10 3).2 (by
    intro c hc
    simp only [List.mem_singleton] at hc
    subst hc
    intro h
    norm_num [candZ])

-- ── Similarity search (similarity_search.py) ─────────────────────────────

/-- Embedding of `ProductSearchIndex.search(query, top_k)` on a built
index. The similarity scores of the aligned catalog rows against the
query are abstracted as the list `scores` (FAISS inner products of the
L2-normalized embeddings in semantic mode, sklearn cosine similarities in
lexical mode). `_search_tfidf` takes `scores.argsort()[::-1][:top_k]` and
attaches `search_score`; `_search_faiss` delegates the same top-k
selection in descending score order to `faiss.IndexFlatIP.search`, which
is external code modelled here by its documented contract (best `top_k`
rows by score, descending). -/
def search (use_faiss : Bool) (product_df : List Cand) (scores : List ℚ)
    (top_k : ℕ) : List (Cand × ℚ) :=
  if use_faiss then (sortDescBy Prod.snd (product_df.zip scores)).take top_k
  else (sortDescBy Prod.snd (product_df.zip scores)).take top_k

/-- C7: on a built index (either mode), `search` returns at most `top_k`
rows, and the attached `search_score` values are in descending order. -/
theorem C7_search_topk_desc (use_faiss : Bool) (product_df : List Cand)
    (scores : List ℚ) (top_k : ℕ) :
    (search use_faiss product_df scores top_k).length ≤ top_k ∧
    (search use_faiss product_df scores top_k).Pairwise (fun a b => b.2 ≤ a.2) := by
  constructor
  · unfold search
    split <;> (rw [List.length_take]; exact min_le_left _ _)
  · unfold search
    split <;>
      exact (pairwise_sortDescBy Prod.snd _).sublist (List.take_sublist _ _) |>.imp
        (fun h => h)

-- ── Relevance labels (BudgetRanker._build_groups_and_labels) ─────────────

/-- LightGBM LambdaRank maximum relevance label (budget_ranker.py). -/
def MAX_LABEL : ℤ := 30

/-- Pandas `groupby(...)["value_score"].rank(method="first", ascending=True)`
restricted to one group `g` (the group's value scores in within-group
order): the rank of the element at position `i` is one plus the number of
strictly smaller elements plus the number of earlier equal elements. -/
def rankFirst (g : List ℚ) : List ℕ :=
  g.enum.map (fun p =>
    1 + g.countP (fun w => decide (w < p.2)) +
      (g.take p.1).countP (fun w => decide (w = p.2)))

/-- Pandas `Series.min()` of a nonempty series (0 on empty, unused). -/
def seriesMin (l : List ℕ) : ℕ :=
  match l with
  | [] => 0
  | x :: xs => xs.foldl min x

/-- Pandas `Series.max()` of a nonempty series (0 on empty, unused). -/
def seriesMax (l : List ℕ) : ℕ :=
  match l with
  | [] => 0
  | x :: xs => xs.foldl max x

/-- Embedding of the inner `scale_group` of `_build_groups_and_labels`:
if all raw ranks coincide the group collapses to 0, otherwise each rank is
rescaled linearly onto 0–MAX_LABEL and rounded to the nearest integer
(pandas `.round()`, banker's rounding). -/
def scale_group (rs : List ℕ) : List ℤ :=
  if seriesMax rs = seriesMin rs then rs.map (fun _ => 0)
  else rs.map (fun (r : ℕ) =>
    roundHalfEven (((r : ℚ) - (seriesMin rs : ℚ)) /
      ((seriesMax rs : ℚ) - (seriesMin rs : ℚ)) * (MAX_LABEL : ℚ)))

/-- The relevance labels of one sub-category group: scaled ranks followed
by the `.clip(0, MAX_LABEL)` of `_build_groups_and_labels`. -/
def labelsOfGroup (g : List ℚ) : List ℤ :=
  (scale_group (rankFirst g)).map (fun z => min (max z 0) MAX_LABEL)

/-- The value scores of the rows of one sub-category group of a training
set of (Sub_category, value_score) rows, in row order. -/
def groupValues (df : List (String × ℚ)) (c : String) : List ℚ :=
  (df.filter (fun r => decide (r.1 = c))).map (fun r => r.2)

-- ── Lemmas on banker's rounding ──────────────────────────────────────────

theorem roundHalfEven_ge_floor (q : ℚ) : ⌊q⌋ ≤ roundHalfEven q := by
  unfold roundHalfEven
  repeat' split
  all_goals omega

theorem roundHalfEven_le_floor_add_one (q : ℚ) : roundHalfEven q ≤ ⌊q⌋ + 1 := by
  unfold roundHalfEven
  repeat' split
  all_goals omega

theorem roundHalfEven_intCast (k : ℤ) : roundHalfEven (k : ℚ) = k := by
  unfold roundHalfEven
  simp only [Int.floor_intCast, sub_self]
  norm_num

theorem roundHalfEven_mono {a b : ℚ} (hab : a ≤ b) :
    roundHalfEven a ≤ roundHalfEven b := by
  rcases lt_or_eq_of_le (Int.floor_le_floor hab) with hlt | heq
  · calc roundHalfEven a ≤ ⌊a⌋ + 1 := roundHalfEven_le_floor_add_one a
    _ ≤ ⌊b⌋ := by omega
    _ ≤ roundHalfEven b := roundHalfEven_ge_floor b
  · have hfa : (⌊a⌋ : ℚ) = (⌊b⌋ : ℚ) := by exact_mod_cast heq
    have hfr : a - (⌊a⌋ : ℚ) ≤ b - (⌊b⌋ : ℚ) := by rw [hfa]; linarith
    unfold roundHalfEven
    by_cases h1 : a - (⌊a⌋ : ℚ) < 1/2
    · rw [if_pos h1, heq]
      have hb := roundHalfEven_ge_floor b
      unfold roundHalfEven at hb
      exact hb
    · by_cases h2 : 1/2 < a - (⌊a⌋ : ℚ)
      · have hb2 : 1/2 < b - (⌊b⌋ : ℚ) := lt_of_lt_of_le h2 hfr
        have hb1 : ¬ (b - (⌊b⌋ : ℚ) < 1/2) := by linarith
        rw [if_neg h1, if_pos h2, if_neg hb1, if_pos hb2, heq]
      · have hb1 : ¬ (b - (⌊b⌋ : ℚ) < 1/2) := by
          intro hc
          exact h1 (lt_of_le_of_lt hfr hc)
        by_cases hb2 : 1/2 < b - (⌊b⌋ : ℚ)
        · rw [if_neg h1, if_neg h2, if_neg hb1, if_pos hb2, heq]
          split <;> omega
        · rw [if_neg h1, if_neg h2, if_neg hb1, if_neg hb2, heq]

-- ── Lemmas for the label construction ────────────────────────────────────

theorem getD_eq_get {α : Type} (l : List α) (d : α) (i : ℕ) (hi : i < l.length) :
    l.getD i d = l.get ⟨i, hi⟩ := by
  simp [List.getD_eq_getElem?_getD, List.getElem?_eq_getElem hi]

theorem rankFirst_length (g : List ℚ) : (rankFirst g).length = g.length := by
  simp [rankFirst]

theorem rankFirst_get (g : List ℚ) (i : ℕ) (hi : i < g.length) :
    (rankFirst g).get ⟨i, by rw [rankFirst_length]; exact hi⟩ =
      1 + g.countP (fun w => decide (w < g.get ⟨i, hi⟩)) +
        (g.take i).countP (fun w => decide (w = g.get ⟨i, hi⟩)) := by
  simp [rankFirst]

theorem countP_lt_add_eq_le (g : List ℚ) (vi vj : ℚ) (hv : vi < vj) :
    g.countP (fun w => decide (w < vi)) + g.countP (fun w => decide (w = vi)) ≤
      g.countP (fun w => decide (w < vj)) := by
  induction g with
  | nil => simp
  | cons w ws ih =>
    simp only [List.countP_cons]
    by_cases h1 : w < vi
    · have h2 : ¬ w = vi := ne_of_lt h1
      have h3 : w < vj := lt_trans h1 hv
      simp [h1, h2, h3]
      omega
    · by_cases h2 : w = vi
      · simp [h1, h2, hv]
        omega
      · by_cases h3 : w < vj
        · simp [h1, h2, h3]
          omega
        · simp [h1, h2, h3]
          omega

theorem rankFirst_le (g : List ℚ) (i j : ℕ) (hi : i < g.length) (hj : j < g.length)
    (hv : g.get ⟨i, hi⟩ < g.get ⟨j, hj⟩) :
    (rankFirst g).get ⟨i, by rw [rankFirst_length]; exact hi⟩ ≤
      (rankFirst g).get ⟨j, by rw [rankFirst_length]; exact hj⟩ := by
  rw [rankFirst_get g i hi, rankFirst_get g j hj]
  have h1 : (g.take i).countP (fun w => decide (w = g.get ⟨i, hi⟩)) ≤
      g.countP (fun w => decide (w = g.get ⟨i, hi⟩)) :=
    (List.take_sublist i g).countP_le _
  have h2 := countP_lt_add_eq_le g (g.get ⟨i, hi⟩) (g.get ⟨j, hj⟩) hv
  omega

theorem foldl_min_le_init (xs : List ℕ) (a : ℕ) : xs.foldl min a ≤ a := by
  induction xs generalizing a with
  | nil => exact le_rfl
  | cons y ys ih => exact le_trans (ih (min a y)) (min_le_left a y)

theorem le_foldl_max_init (xs : List ℕ) (a : ℕ) : a ≤ xs.foldl max a := by
  induction xs generalizing a with
  | nil => exact le_rfl
  | cons y ys ih => exact le_trans (le_max_left a y) (ih (max a y))

theorem seriesMin_le_seriesMax (l : List ℕ) (h : l ≠ []) :
    seriesMin l ≤ seriesMax l := by
  match l with
  | x :: xs =>
    exact le_trans (foldl_min_le_init xs x) (le_foldl_max_init xs x)

theorem scale_group_length (rs : List ℕ) : (scale_group rs).length = rs.length := by
  unfold scale_group
  split <;> exact List.length_map _ _

theorem labelsOfGroup_length (g : List ℚ) : (labelsOfGroup g).length = g.length := by
  simp [labelsOfGroup, scale_group_length, rankFirst_length]

theorem labelsOfGroup_mem_bound (g : List ℚ) (l : ℤ) (hl : l ∈ labelsOfGroup g) :
    0 ≤ l ∧ l ≤ MAX_LABEL := by
  rcases List.mem_map.mp hl with ⟨z, _, rfl⟩
  exact ⟨le_min (le_max_right z 0) (by norm_num [MAX_LABEL]), min_le_right _ _⟩

theorem clip_mono {a b : ℤ} (h : a ≤ b) :
    min (max a 0) MAX_LABEL ≤ min (max b 0) MAX_LABEL :=
  min_le_min (max_le_max h le_rfl) le_rfl

theorem labelsOfGroup_mono (g : List ℚ) (i j : ℕ) (hi : i < g.length)
    (hj : j < g.length) (hv : g.getD i 0 < g.getD j 0) :
    (labelsOfGroup g).getD i 0 ≤ (labelsOfGroup g).getD j 0 := by
  have hli : i < (labelsOfGroup g).length := by rw [labelsOfGroup_length]; exact hi
  have hlj : j < (labelsOfGroup g).length := by rw [labelsOfGroup_length]; exact hj
  have hri : i < (rankFirst g).length := by rw [rankFirst_length]; exact hi
  have hrj : j < (rankFirst g).length := by rw [rankFirst_length]; exact hj
  rw [getD_eq_get _ _ _ hli, getD_eq_get _ _ _ hlj]
  rw [getD_eq_get _ _ _ hi, getD_eq_get _ _ _ hj] at hv
  have hrank : (rankFirst g).get ⟨i, hri⟩ ≤ (rankFirst g).get ⟨j, hrj⟩ :=
    rankFirst_le g i j hi hj hv
  have hne : g ≠ [] := List.ne_nil_of_length_pos (lt_of_le_of_lt (Nat.zero_le i) hi)
  have hrne : rankFirst g ≠ [] := by
    intro hc
    exact hne (List.length_eq_zero.mp (by rw [← rankFirst_length g, hc]; rfl))
  simp only [labelsOfGroup, List.get_eq_getElem, List.getElem_map]
  apply clip_mono
  by_cases hc : seriesMax (rankFirst g) = seriesMin (rankFirst g)
  · simp only [scale_group, if_pos hc, List.getElem_map]
    exact le_rfl
  · simp only [scale_group, if_neg hc, List.getElem_map]
    apply roundHalfEven_mono
    have hminmax : seriesMin (rankFirst g) < seriesMax (rankFirst g) :=
      lt_of_le_of_ne (seriesMin_le_seriesMax _ hrne) (Ne.symm hc)
    have hD : (0 : ℚ) < (seriesMax (rankFirst g) : ℚ) - (seriesMin (rankFirst g) : ℚ) := by
      rw [sub_pos]
      exact_mod_cast hminmax
    have hnum : ((rankFirst g)[i] : ℚ) - (seriesMin (rankFirst g) : ℚ) ≤
        ((rankFirst g)[j] : ℚ) - (seriesMin (rankFirst g) : ℚ) := by
      have hc2 : ((rankFirst g)[i] : ℚ) ≤ ((rankFirst g)[j] : ℚ) := by
        exact_mod_cast hrank
      linarith
    have hdiv := (div_le_div_iff_of_pos_right hD).mpr hnum
    have h30 : (0 : ℚ) ≤ (MAX_LABEL : ℚ) := by norm_num [MAX_LABEL]
    exact mul_le_mul_of_nonneg_right hdiv h30

theorem labelsOfGroup_singleton (v : ℚ) : labelsOfGroup [v] = [0] := by
  have h1 : rankFirst [v] = [1] := by
    simp [rankFirst, List.countP_cons, lt_irrefl]
  simp [labelsOfGroup, h1, scale_group, seriesMin, seriesMax, MAX_LABEL]

-- ── C2 ───────────────────────────────────────────────────────────────────

/-- C2 (amended): for every training set and every sub-category group, the
relevance labels are integers in [0, MAX_LABEL] (MAX_LABEL = 30); within
the group the label is non-decreasing in value score (a strictly smaller
value score never receives a larger label); and every group of size 1 gets
label 0. (A group of size ≥ 2 whose members all share one value score is
NOT collapsed to 0: `rank(method="first")` assigns distinct positional
ranks to ties, which are then rescaled over the full 0–MAX_LABEL range.) -/
theorem C2_labels_amended (df : List (String × ℚ)) (c : String) :
    (∀ l ∈ labelsOfGroup (groupValues df c), 0 ≤ l ∧ l ≤ MAX_LABEL) ∧
    (∀ i j : ℕ, i < (groupValues df c).length → j < (groupValues df c).length →
      (groupValues df c).getD i 0 < (groupValues df c).getD j 0 →
      (labelsOfGroup (groupValues df c)).getD i 0 ≤
        (labelsOfGroup (groupValues df c)).getD j 0) ∧
    ((groupValues df c).length = 1 → labelsOfGroup (groupValues df c) = [0]) := by
  refine ⟨fun l hl => labelsOfGroup_mem_bound _ l hl,
    fun i j hi hj hv => labelsOfGroup_mono _ i j hi hj hv, fun h1 => ?_⟩
  rcases List.length_eq_one.mp h1 with ⟨v, hv⟩
  rw [hv]
  exact labelsOfGroup_singleton v

/-- Witness for C2 at a concrete input: a singleton sub-category group
receives the label list [0]. -/
theorem C2_labels_amended_witness :
    labelsOfGroup (groupValues [("a", (5 : ℚ))] "a") = [0] :=
  (C2_labels_amended [("a", 5)] "a").2.2 (by norm_num [groupValues, List.filter])

/-- C2 counterexample: the claim says every group whose members all share
a single value score has all labels 0, but a group of two rows with equal
value score 5 receives labels [0, 30] — the tied rows get distinct
positional ranks 1 and 2, rescaled to 0 and 30, so not every member's
label is 0. -/
theorem C2_counterexample :
    ¬ (∀ l ∈ labelsOfGroup (groupValues [("a", (5 : ℚ)), ("a", 5)] "a"), l = 0) := by
  have h0 : groupValues [("a", (5 : ℚ)), ("a", 5)] "a" = [5, 5] := by
    norm_num [groupValues, List.filter]
  have h1 : rankFirst [(5 : ℚ), 5] = [1, 2] := by
    norm_num [rankFirst, List.enum, List.enumFrom, List.countP_cons, List.take]
  have hval : labelsOfGroup (groupValues [("a", (5 : ℚ)), ("a", 5)] "a") = [0, 30] := by
    rw [h0, labelsOfGroup, h1]
    norm_num [scale_group, seriesMin, seriesMax, roundHalfEven, MAX_LABEL]
  rw [hval]
  intro h
  have h30 := h 30 (by simp)
  norm_num at h30

-- ── Price predictor (price_predictor.py) ─────────────────────────────────

/-- One historical price observation row, keyed by Sku (the claim-relevant
columns of the history DataFrame). -/
structure HistRow where
  Sku : String
  Package_price : ℚ
deriving DecidableEq, Repr

/-- Result dictionary of `PricePredictor.predict_next_price`: the
"Sku not found" error dict, or a prediction dict; `price_change` is absent
(`none`) in the low-history/untrained fallback dict. -/
inductive PredictResult where
  | err (msg : String)
  | ok (sku : String) (predicted_price : ℚ) (last_known_price : ℚ)
      (price_change : Option ℚ) (trend : String) (confidence : String)
deriving DecidableEq, Repr

/-- The `min_history` threshold of PricePredictor (minimum data points
needed to predict). -/
def min_history : ℕ := 3

/-- The `sku_df` local of `predict_next_price`: the history rows of one
Sku, in DataFrame order. -/
def sku_history (sku : String) (df : List HistRow) : List HistRow :=
  df.filter (fun r => decide (r.Sku = sku))

/-- Embedding of `PricePredictor.predict_next_price(sku, df)`.
`is_trained` is the trained flag; `modelPredict` abstracts the composite
`_build_time_features` → fitted scaler → Ridge prediction applied to the
Sku's history (only consulted on the fully-trained, enough-history path).
The fallback path returns the last known price with trend "stable" and
confidence "low"; the model path floors the prediction at 0.10,
classifies the trend by a ±0.20 change threshold and reports confidence
"medium" when at least 5 observations exist. -/
def predict_next_price (is_trained : Bool) (modelPredict : List HistRow → ℚ)
    (sku : String) (df : List HistRow) : PredictResult :=
  match (sku_history sku df).getLast? with
  | none => .err ("Sku " ++ sku ++ " not found")
  | some lastRow =>
      if (sku_history sku df).length < min_history ∨ is_trained = false then
        .ok sku lastRow.Package_price lastRow.Package_price none "stable" "low"
      else
        let predicted := max (modelPredict (sku_history sku df)) (0.10 : ℚ)
        let change := predicted - lastRow.Package_price
        let trend :=
          if (0.20 : ℚ) < change then "rising"
          else if change < -(0.20 : ℚ) then "falling"
          else "stable"
        .ok sku (roundTo 2 predicted) (roundTo 2 lastRow.Package_price)
          (some (roundTo 2 change)) trend
          (if 5 ≤ (sku_history sku df).length then "medium" else "low")

-- ── Inference pipeline (inference_pipeline.py) ───────────────────────────

/-- One formatted output record of `InferencePipeline.recommend`
(the OUTPUT_COLUMNS projection, after rounding). -/
structure OutRec where
  Product_Name : String
  Sub_category : String
  Package_price : ℚ
  price_per_100g : Option ℚ
  discount_pct : Option ℚ
  value_score : Option ℚ
  city : String
  state : String
deriving DecidableEq, Repr

/-- The soft city filter of `InferencePipeline.recommend`: applied only
when a city argument is given and non-empty (Python truthiness of the
`city` string) and at least one candidate matches case-insensitively. -/
def cityFilter (city : Option String) (cands : List Cand) : List Cand :=
  match city with
  | none => cands
  | some ct =>
      if ct = "" then cands
      else if (cands.filter (fun c => decide (c.city.toLower = ct.toLower))).isEmpty
        then cands
      else cands.filter (fun c => decide (c.city.toLower = ct.toLower))

/-- The soft state filter of `InferencePipeline.recommend`: same policy as
the city filter, matching case-insensitively via upper-casing, applied to
the already city-filtered candidates. -/
def stateFilter (st : Option String) (cands : List Cand) : List Cand :=
  match st with
  | none => cands
  | some s =>
      if s = "" then cands
      else if (cands.filter (fun c => decide (c.state.toUpper = s.toUpper))).isEmpty
        then cands
      else cands.filter (fun c => decide (c.state.toUpper = s.toUpper))

/-- The output formatting of `InferencePipeline.recommend`: project to the
output columns, round `Package_price` and `price_per_100g` and
`value_score` to 2 decimal places, and report `discount_pct` as the 0–1
catalog fraction times 100 rounded to 1 decimal place. -/
def formatRec (c : Cand) : OutRec :=
  ⟨c.Product_Name, c.Sub_category, roundTo 2 c.Package_price,
    c.price_per_100g.map (fun v => roundTo 2 v),
    c.discount_pct.map (fun d => roundTo 1 (d * 100)),
    c.value_score.map (fun v => roundTo 2 v),
    c.city, c.state⟩

/-- Embedding of `InferencePipeline.recommend(query, budget, city, state,
top_n)`. The retrieval stage `search_index.search(query, top_k=50)` is
abstracted as the candidate list `searchResults` (rows coming through
retrieval carry `search_score`, so the ranker sees the search column);
`model` is the loaded ranker state. Empty retrieval returns []; then the
soft location filters, the budget ranker and the rounding projection. -/
def recommend (model : Option (Cand → ℚ)) (searchResults : List Cand)
    (budget : ℚ) (city st : Option String) (top_n : ℕ) : List OutRec :=
  if searchResults.isEmpty then []
  else
    (rank_products model true (stateFilter st (cityFilter city searchResults))
      budget top_n).map formatRec

-- ── Basket planner (api/endpoints/recommend.py) ──────────────────────────

/-- One line of the basket response (schema BasketItem). -/
structure BasketItem where
  query : String
  best_match : Option OutRec
  alternatives : List OutRec
  estimated_cost : ℚ
deriving DecidableEq, Repr

/-- The basket response (schema RecommendResponse). -/
structure RecommendResponse where
  total_budget : ℚ
  estimated_total : ℚ
  within_budget : Bool
  basket : List BasketItem
deriving DecidableEq, Repr

/-- One basket line of `recommend_basket`: top-3 recommendation at the
per-item budget; if that is empty, one retry at the full total budget;
if the retry is also empty, a null best match with zero cost. -/
def lineFor (model : Option (Cand → ℚ)) (searchFn : String → List Cand)
    (city st : Option String) (total_budget per_item_budget : ℚ)
    (q : String) : BasketItem :=
  match recommend model (searchFn q) per_item_budget city st 3 with
  | [] =>
      match recommend model (searchFn q) total_budget city st 3 with
      | [] => ⟨q, none, [], 0⟩
      | best :: alts => ⟨q, some best, alts, best.Package_price⟩
  | best :: alts => ⟨q, some best, alts, best.Package_price⟩

/-- The basket lines of `recommend_basket`: one line per requested item,
each using the equal per-item budget split `total_budget / len(items)`. -/
def basketLines (model : Option (Cand → ℚ)) (searchFn : String → List Cand)
    (city st : Option String) (items : List String)
    (total_budget : ℚ) : List BasketItem :=
  items.map (lineFor model searchFn city st total_budget
    (total_budget / (items.length : ℚ)))

/-- Embedding of the `/recommend` endpoint `recommend_basket(request)`:
HTTP 400 on an empty item list, otherwise the basket of per-item lines,
the reported `estimated_total` (the raw sum of line costs, rounded to 2
decimal places in the response) and the `within_budget` flag computed on
the raw sum. The per-query retrieval stage is abstracted as `searchFn`. -/
def recommend_basket (model : Option (Cand → ℚ)) (searchFn : String → List Cand)
    (city st : Option String) (items : List String) (total_budget : ℚ) :
    Except String RecommendResponse :=
  if items.isEmpty then .error "Items list cannot be empty"
  else
    .ok ⟨total_budget,
      roundTo 2 (((basketLines model searchFn city st items total_budget).map
        (fun b => b.estimated_cost)).sum),
      decide ((((basketLines model searchFn city st items total_budget).map
        (fun b => b.estimated_cost)).sum) ≤ total_budget),
      basketLines model searchFn city st items total_budget⟩

-- ── Whole-cent arithmetic ────────────────────────────────────────────────

/-- A rational that is a whole number of cents. Every price in the
pipeline output is, thanks to the 2-decimal rounding of `formatRec`. -/
def isCent (q : ℚ) : Prop := ∃ k : ℤ, q = (k : ℚ) / 100

theorem isCent_zero : isCent 0 := ⟨0, by norm_num⟩

theorem isCent_add {a b : ℚ} (ha : isCent a) (hb : isCent b) : isCent (a + b) := by
  rcases ha with ⟨ka, rfl⟩
  rcases hb with ⟨kb, rfl⟩
  exact ⟨ka + kb, by push_cast; ring⟩

theorem isCent_roundTo2 (q : ℚ) : isCent (roundTo 2 q) :=
  ⟨roundHalfEven (q * 10 ^ 2), by norm_num [roundTo]⟩

theorem roundTo2_of_isCent {q : ℚ} (h : isCent q) : roundTo 2 q = q := by
  rcases h with ⟨k, rfl⟩
  unfold roundTo
  have h1 : (k : ℚ) / 100 * 10 ^ (2 : ℕ) = (k : ℚ) := by
    norm_num
  rw [h1, roundHalfEven_intCast]
  norm_num

-- ── Lemmas on the soft location filters ──────────────────────────────────

theorem cityFilter_ne_nil (city : Option String) (cands : List Cand)
    (h : cands ≠ []) : cityFilter city cands ≠ [] := by
  cases city with
  | none => simpa [cityFilter] using h
  | some ct =>
    simp only [cityFilter]
    split
    · exact h
    · split
      · exact h
      · rename_i hne
        simpa [List.isEmpty_iff] using hne

theorem stateFilter_ne_nil (st : Option String) (cands : List Cand)
    (h : cands ≠ []) : stateFilter st cands ≠ [] := by
  cases st with
  | none => simpa [stateFilter] using h
  | some s =>
    simp only [stateFilter]
    split
    · exact h
    · split
      · exact h
      · rename_i hne
        simpa [List.isEmpty_iff] using hne

theorem mem_cityFilter (city : Option String) (cands : List Cand) (x : Cand)
    (hx : x ∈ cityFilter city cands) : x ∈ cands := by
  cases city with
  | none => simpa [cityFilter] using hx
  | some ct =>
    simp only [cityFilter] at hx
    split at hx
    · exact hx
    · split at hx
      · exact hx
      · exact (List.mem_filter.mp hx).1

theorem mem_stateFilter (st : Option String) (cands : List Cand) (x : Cand)
    (hx : x ∈ stateFilter st cands) : x ∈ cands := by
  cases st with
  | none => simpa [stateFilter] using hx
  | some s =>
    simp only [stateFilter] at hx
    split at hx
    · exact hx
    · split at hx
      · exact hx
      · exact (List.mem_filter.mp hx).1

-- ── C4 ───────────────────────────────────────────────────────────────────

/-- C4: for every identifier with at least one observation, whenever the
history has fewer than `min_history` (3) rows or the model was never
trained, `predict_next_price` returns the last observed price as the
prediction, trend "stable" and confidence "low", and the result is the
same for every model function — the regression model is never invoked. -/
theorem C4_predict_fallback (is_trained : Bool) (sku : String)
    (df : List HistRow) (lastRow : HistRow)
    (hlast : (sku_history sku df).getLast? = some lastRow)
    (hcond : (sku_history sku df).length < min_history ∨ is_trained = false) :
    ∀ modelPredict : List HistRow → ℚ,
      predict_next_price is_trained modelPredict sku df =
        PredictResult.ok sku lastRow.Package_price lastRow.Package_price
          none "stable" "low" := by
  intro m
  unfold predict_next_price
  rw [hlast]
  exact if_pos hcond

/-- Witness for C4 at a concrete input: a Sku with exactly one observation
at price 7 and a trained model that would predict 42; the fallback returns
7, "stable", "low" regardless. -/
theorem C4_predict_fallback_witness :
    predict_next_price true (fun _ => 42) "s1" [⟨"s1", 7⟩] =
      PredictResult.ok "s1" 7 7 none "stable" "low" :=
  C4_predict_fallback true "s1" [⟨"s1", 7⟩] ⟨"s1", 7⟩
    (by norm_num [sku_history, List.filter])
    (Or.inl (by norm_num [sku_history, List.filter, min_history]))
    (fun _ => 42)

-- ── C5 ───────────────────────────────────────────────────────────────────

/-- C5: the location-filter stage of `recommend` — the state filter
applied to the city-filtered candidates — never turns a non-empty
candidate set into an empty one (each filter is applied only when at least
one candidate matches), and only ever keeps candidates of the original
set. -/
theorem C5_location_filter_soft (city st : Option String) (cands : List Cand)
    (h : cands ≠ []) :
    stateFilter st (cityFilter city cands) ≠ [] ∧
    (∀ x ∈ stateFilter st (cityFilter city cands), x ∈ cands) := by
  constructor
  · exact stateFilter_ne_nil st _ (cityFilter_ne_nil city cands h)
  · intro x hx
    exact mem_cityFilter city cands x (mem_stateFilter st _ x hx)

/-- Witness for C5 at a concrete input: a single candidate with city "c",
filtered by a city and a state that match nothing, survives. -/
theorem C5_location_filter_soft_witness :
    stateFilter (some "ZZ") (cityFilter (some "nowhere") [candA]) ≠ [] :=
  (C5_location_filter_soft (some "nowhere") (some "ZZ") [candA] (by simp)).1

-- ── C10 ──────────────────────────────────────────────────────────────────

/-- C10: every record returned by the inference pipeline's `recommend`
comes from a ranked catalog row `c`, with `Package_price`,
`price_per_100g` and `value_score` rounded to 2 decimal places and
`discount_pct` reported as the catalog's 0–1 fraction multiplied by 100
and rounded to 1 decimal place (percent units in the public output). -/
theorem C10_output_rounding (model : Option (Cand → ℚ))
    (searchResults : List Cand) (budget : ℚ) (city st : Option String)
    (top_n : ℕ) :
    ∀ r ∈ recommend model searchResults budget city st top_n,
      ∃ c ∈ rank_products model true
          (stateFilter st (cityFilter city searchResults)) budget top_n,
        r = formatRec c ∧
        r.Package_price = roundTo 2 c.Package_price ∧
        r.price_per_100g = c.price_per_100g.map (fun v => roundTo 2 v) ∧
        r.discount_pct = c.discount_pct.map (fun d => roundTo 1 (d * 100)) ∧
        r.value_score = c.value_score.map (fun v => roundTo 2 v) := by
  intro r hr
  unfold recommend at hr
  split at hr
  · simp at hr
  · rcases List.mem_map.mp hr with ⟨c, hc, rfl⟩
    exact ⟨c, hc, rfl, rfl, rfl, rfl, rfl⟩

/-- Witness for C10 at a concrete input: one retrieved candidate priced 5
with discount fraction 1, which the pipeline returns formatted. -/
theorem C10_output_rounding_witness :
    ∃ c ∈ rank_products Option.none true
        (stateFilter none (cityFilter none [candX])) 10 3,
      formatRec candX = formatRec c ∧
      (formatRec candX).Package_price = roundTo 2 c.Package_price ∧
      (formatRec candX).price_per_100g = c.price_per_100g.map (fun v => roundTo 2 v) ∧
      (formatRec candX).discount_pct = c.discount_pct.map (fun d => roundTo 1 (d * 100)) ∧
      (formatRec candX).value_score = c.value_score.map (fun v => roundTo 2 v) :=
  C10_output_rounding Option.none [candX] 10 none none 3 (formatRec candX)
    (by norm_num [recommend, rank_products, candidatesWithinBudget,
      candidatesRelevant, cityFilter, stateFilter, sortDescBy, insertDescBy,
      candX, List.filter])

-- ── Lemmas on basket lines ───────────────────────────────────────────────

theorem mem_recommend_price_isCent (model : Option (Cand → ℚ))
    (searchResults : List Cand) (budget : ℚ) (city st : Option String)
    (top_n : ℕ) (r : OutRec)
    (hr : r ∈ recommend model searchResults budget city st top_n) :
    isCent r.Package_price := by
  unfold recommend at hr
  split at hr
  · simp at hr
  · rcases List.mem_map.mp hr with ⟨c, _, rfl⟩
    exact isCent_roundTo2 c.Package_price

theorem lineFor_cost_eq (model : Option (Cand → ℚ)) (searchFn : String → List Cand)
    (city st : Option String) (tb pib : ℚ) (q : String) :
    (lineFor model searchFn city st tb pib q).estimated_cost =
      ((lineFor model searchFn city st tb pib q).best_match.map
        (fun r => r.Package_price)).getD 0 := by
  unfold lineFor
  split
  · split
    · rfl
    · rfl
  · rfl

theorem lineFor_cost_isCent (model : Option (Cand → ℚ)) (searchFn : String → List Cand)
    (city st : Option String) (tb pib : ℚ) (q : String) :
    isCent (lineFor model searchFn city st tb pib q).estimated_cost := by
  unfold lineFor
  split
  · split
    · exact isCent_zero
    · rename_i best alts heq
      exact mem_recommend_price_isCent model (searchFn q) tb city st 3 best
        (by rw [heq]; exact List.mem_cons_self best alts)
  · rename_i best alts heq
    exact mem_recommend_price_isCent model (searchFn q) pib city st 3 best
      (by rw [heq]; exact List.mem_cons_self best alts)

theorem sum_map_isCent (lines : List BasketItem)
    (h : ∀ b ∈ lines, isCent b.estimated_cost) :
    isCent ((lines.map (fun b => b.estimated_cost)).sum) := by
  induction lines with
  | nil => simpa using isCent_zero
  | cons b bs ih =>
    simp only [List.map_cons, List.sum_cons]
    exact isCent_add (h b (List.mem_cons_self b bs))
      (ih (fun x hx => h x (List.mem_cons_of_mem b hx)))

-- ── C3 ───────────────────────────────────────────────────────────────────

/-- C3: for every basket request with a non-empty item list and positive
total budget, the reported `estimated_total` equals the sum of the basket
lines' costs (each cost being the best match's package price, or 0 for a
line without a match), and the reported `within_budget` flag equals
`estimated_total ≤ total_budget`. (The raw sum survives the 2-decimal
response rounding because every pipeline price is a whole number of
cents.) -/
theorem C3_basket_totals (model : Option (Cand → ℚ)) (searchFn : String → List Cand)
    (city st : Option String) (items : List String) (total_budget : ℚ)
    (resp : RecommendResponse) (hitems : items ≠ []) (_hpos : 0 < total_budget)
    (hok : recommend_basket model searchFn city st items total_budget = Except.ok resp) :
    resp.estimated_total = ((resp.basket.map (fun b => b.estimated_cost)).sum) ∧
    (∀ line ∈ resp.basket,
      line.estimated_cost = (line.best_match.map (fun r => r.Package_price)).getD 0) ∧
    resp.within_budget = decide (resp.estimated_total ≤ resp.total_budget) := by
  unfold recommend_basket at hok
  rw [if_neg (by simpa [List.isEmpty_iff] using hitems)] at hok
  injection hok with h
  subst h
  have hcent : isCent (((basketLines model searchFn city st items total_budget).map
      (fun b => b.estimated_cost)).sum) := by
    apply sum_map_isCent
    intro b hb
    rcases List.mem_map.mp hb with ⟨q, _, rfl⟩
    exact lineFor_cost_isCent model searchFn city st total_budget _ q
  refine ⟨roundTo2_of_isCent hcent, ?_, ?_⟩
  · intro line hline
    rcases List.mem_map.mp hline with ⟨q, _, rfl⟩
    exact lineFor_cost_eq model searchFn city st total_budget _ q
  · show decide _ = decide _
    rw [roundTo2_of_isCent hcent]

/-- Witness for C3 at a concrete input: one item with no retrieval
candidates, so the basket has a single null line with cost 0, the total is
0 and the flag is true. -/
theorem C3_basket_totals_witness :
    (⟨10, 0, true, [⟨"apple", none, [], (0 : ℚ)⟩]⟩ : RecommendResponse).estimated_total =
      (((⟨10, 0, true, [⟨"apple", none, [], (0 : ℚ)⟩]⟩ : RecommendResponse).basket.map
        (fun b => b.estimated_cost)).sum) :=
  (C3_basket_totals Option.none (fun _ => []) none none ["apple"] 10
    ⟨10, 0, true, [⟨"apple", none, [], 0⟩]⟩ (by simp) (by norm_num)
    (by norm_num [recommend_basket, basketLines, lineFor, recommend,
      roundTo, roundHalfEven])).1

-- ── C9 ───────────────────────────────────────────────────────────────────

/-- C9: the basket of a successful plan consists of one line per item at
the equal per-item budget split, and whenever the per-item-budget
recommendation of an item is empty the planner retries exactly once with
the full total budget: if the retry returns candidates the line records
its best match and that price as cost, and only if the retry is also empty
does the line record a null best match with cost 0. -/
theorem C9_basket_retry (model : Option (Cand → ℚ)) (searchFn : String → List Cand)
    (city st : Option String) (items : List String) (total_budget : ℚ)
    (resp : RecommendResponse)
    (hok : recommend_basket model searchFn city st items total_budget = Except.ok resp) :
    resp.basket = items.map (lineFor model searchFn city st total_budget
      (total_budget / (items.length : ℚ))) ∧
    (∀ q : String,
      recommend model (searchFn q) (total_budget / (items.length : ℚ)) city st 3 = [] →
      (recommend model (searchFn q) total_budget city st 3 = [] →
        lineFor model searchFn city st total_budget
          (total_budget / (items.length : ℚ)) q = ⟨q, none, [], 0⟩) ∧
      (∀ best alts,
        recommend model (searchFn q) total_budget city st 3 = best :: alts →
        lineFor model searchFn city st total_budget
          (total_budget / (items.length : ℚ)) q =
            ⟨q, some best, alts, best.Package_price⟩)) := by
  constructor
  · unfold recommend_basket at hok
    split at hok
    · simp at hok
    · injection hok with h
      subst h
      rfl
  · intro q h1
    constructor
    · intro h2
      unfold lineFor
      rw [h1, h2]
    · intro best alts h2
      unfold lineFor
      rw [h1, h2]

/-- Witness for C9 at a concrete input: an item with no retrieval
candidates at either budget gets the null line with cost 0. -/
theorem C9_basket_retry_witness :
    lineFor Option.none (fun _ => []) none none 10
      ((10 : ℚ) / ((["apple"].length : ℕ) : ℚ)) "apple" = ⟨"apple", none, [], 0⟩ :=
  ((C9_basket_retry Option.none (fun _ => []) none none ["apple"] 10
    ⟨10, 0, true, [⟨"apple", none, [], 0⟩]⟩
    (by norm_num [recommend_basket, basketLines, lineFor, recommend,
      roundTo, roundHalfEven])).2 "apple" (by simp [recommend])).1
    (by simp [recommend])
